import Mathlib

/-!
# Verification of the wine-classifier service (`app.py` / `train_model.py`)

Shallow embedding of the two source files of the repository:

* `src/app.py` — the Flask inference service: `_validate_and_build_matrix`
  (input validation and feature-matrix construction) and the `/predict`
  handler (prediction, optional probabilities, class-name mapping and the
  ValueError-vs-other-exception dispatch to 400/500 responses).
* `src/train_model.py` — `save_artifacts` (directory creation and the
  `features.json` artifact holding the key `feature_order`).

Modelling conventions:

* Python floats are modelled exactly as rationals extended with the three
  non-finite values (`inf`, `-inf`, `nan`); IEEE rounding is out of scope,
  no claim here depends on it.
* JSON values (the payloads the service receives and returns) are the
  inductive `Value`; Python dicts parsed from JSON are association lists
  with unique keys, looked up by first match.
* Python exceptions are the inductive `PyExc`; a `ValueError` raised by the
  validation routine carries its message's data structurally in `VError`
  and the exact message string is produced by `VError.message`.
* The fitted sklearn pipeline is opaque: a `Model` bundles a fallible
  `predict` and an optional fallible `predict_proba`, mirroring the
  capability test `hasattr(MODEL, "predict_proba")`.
-/

set_option autoImplicit false

namespace Wine

/-- A Python float value: a finite rational or one of the non-finite values. -/
inductive PyFloat where
  | finite (q : ℚ)
  | inf
  | negInf
  | nan
deriving DecidableEq, Repr

/-- Whether a `PyFloat` is finite. -/
def PyFloat.isFinite : PyFloat → Bool
  | .finite _ => true
  | _ => false

/-- The whitespace characters `str.strip`/`float` ignore at the ends of a
string (ASCII subset). -/
def isPyWhitespace (c : Char) : Bool :=
  c = ' ' || c = '\t' || c = '\n' || c = '\x0d' || c = '\x0c' || c = '\x0b'

/-- Strip leading and trailing whitespace, as `float(str)` does. -/
def stripWS (cs : List Char) : List Char :=
  ((cs.dropWhile isPyWhitespace).reverse.dropWhile isPyWhitespace).reverse

/-- Consume an optional leading sign; returns (isNegative, rest). -/
def readSign : List Char → Bool × List Char
  | '+' :: cs => (false, cs)
  | '-' :: cs => (true, cs)
  | cs => (false, cs)

/-- Consume `digit (underscore? digit)*` (Python numeric literals allow a
single underscore strictly between digits); returns the accumulated value,
the count of digits consumed, and the rest. -/
def readDigitsAux (acc cnt : Nat) : List Char → Nat × Nat × List Char
  | c :: cs =>
    if c.isDigit then readDigitsAux (10 * acc + (c.toNat - 48)) (cnt + 1) cs
    else if c = '_' then
      match cs with
      | d :: cs2 =>
        if d.isDigit then readDigitsAux (10 * acc + (d.toNat - 48)) (cnt + 1) cs2
        else (acc, cnt, c :: cs)
      | [] => (acc, cnt, c :: cs)
    else (acc, cnt, c :: cs)
  | [] => (acc, cnt, [])

/-- Consume a digit run; fails unless the first character is a digit. -/
def readDigits (cs : List Char) : Option (Nat × Nat × List Char) :=
  match cs with
  | c :: _ => if c.isDigit then some (readDigitsAux 0 0 cs) else none
  | [] => none

/-- Parse the mantissa `digits [. [digits]] | . digits` of a float literal. -/
def readMantissa (cs : List Char) : Option (ℚ × List Char) :=
  match readDigits cs with
  | some (ip, _, rest) =>
    match rest with
    | '.' :: rest2 =>
      match readDigits rest2 with
      | some (fp, fn, rest3) => some ((ip : ℚ) + (fp : ℚ) / (10 : ℚ) ^ fn, rest3)
      | none => some ((ip : ℚ), rest2)
    | _ => some ((ip : ℚ), rest)
  | none =>
    match cs with
    | '.' :: rest2 =>
      match readDigits rest2 with
      | some (fp, fn, rest3) => some ((fp : ℚ) / (10 : ℚ) ^ fn, rest3)
      | none => none
    | _ => none

/-- Parse an optional exponent part `(e|E) sign? digits`. -/
def readExp (cs : List Char) : Option (Int × List Char) :=
  match cs with
  | c :: rest =>
    if c = 'e' || c = 'E' then
      let (neg, rest2) := readSign rest
      match readDigits rest2 with
      | some (e, _, rest3) => some ((if neg then -(e : Int) else (e : Int)), rest3)
      | none => none
    else some (0, cs)
  | [] => some (0, [])

/-- Parse an unsigned decimal float literal (mantissa and optional exponent);
the whole input must be consumed. -/
def parsePyNumber (cs : List Char) : Option ℚ :=
  match readMantissa cs with
  | none => none
  | some (m, rest) =>
    match readExp rest with
    | none => none
    | some (e, rest2) => if rest2 = [] then some (m * (10 : ℚ) ^ e) else none

/-- After the sign: either a named non-finite value (`inf`, `infinity`,
`nan`, case-insensitive) or a decimal literal. -/
def parseFloatTail (isNeg : Bool) (cs : List Char) : Option PyFloat :=
  let low := cs.map Char.toLower
  if low = "inf".toList || low = "infinity".toList then
    some (if isNeg then .negInf else .inf)
  else if low = "nan".toList then some .nan
  else (parsePyNumber cs).map (fun q => .finite (if isNeg then -q else q))

/-- Python's `float(str)` on a string: strip whitespace, optional sign, then
a named special or a decimal literal; `none` models `float` raising. -/
def pyFloatOfString (s : String) : Option PyFloat :=
  let cs := stripWS s.toList
  match readSign cs with
  | (neg, rest) => if rest = [] then none else parseFloatTail neg rest

/-- A JSON value, as parsed by Flask from a request body (and as serialized
back by `jsonify`). Objects are association lists preserving key order. -/
inductive Value where
  | int (i : Int)
  | num (x : PyFloat)
  | str (s : String)
  | boolV (b : Bool)
  | null
  | arr (elems : List Value)
  | obj (fields : List (String × Value))

/-- Python's builtin `float(v)` on a JSON-decoded value: numbers pass
through, booleans become 1.0/0.0, strings are parsed, everything else
(`None`, lists, dicts) raises (`none`). This is the coercion applied by
`_validate_and_build_matrix` (`v = float(v)`, src/app.py line 92). -/
def pyFloat : Value → Option PyFloat
  | .int i => some (.finite (i : ℚ))
  | .num x => some x
  | .boolV b => some (.finite (if b then 1 else 0))
  | .str s => pyFloatOfString s
  | .null => none
  | .arr _ => none
  | .obj _ => none

/-- First-match lookup of a key in a JSON object's fields (`row[f]` /
`f in row` on a Python dict whose keys are unique after JSON parsing). -/
def lookupKey (k : String) : List (String × Value) → Option Value
  | [] => none
  | (k2, v) :: rest => if k2 = k then some v else lookupKey k rest

/-- The structured content of the `ValueError` messages raised by
`_validate_and_build_matrix` (the exact strings are `VError.message`). -/
inductive VError where
  | instancesNotNonEmptyList
  | notAnObject (idx : Nat)
  | missingFeatures (idx : Nat) (missing : List String)
  | notNumeric (feature : String) (idx : Nat)
deriving DecidableEq, Repr

/-- A Python exception as observed by the `/predict` handler's
`except ValueError` / `except Exception` dispatch. `modelExc` is an
exception raised inside an opaque pipeline operation, with a flag telling
whether it is a `ValueError` (sklearn raises `ValueError` e.g. on a
feature-count mismatch). -/
inductive PyExc where
  | valueError (e : VError)
  | keyError (key : String)
  | indexError (i : Int)
  | modelExc (isVE : Bool) (msg : String)
deriving DecidableEq, Repr

/-- Whether the exception is (an instance of) `ValueError`. -/
def PyExc.isValueError : PyExc → Bool
  | .valueError _ => true
  | .modelExc b _ => b
  | _ => false

/-- `missing = [f for f in FEATURE_ORDER if f not in row]` (src/app.py
line 84). -/
def missingOf (feature_order : List String) (row : List (String × Value)) : List String :=
  feature_order.filter (fun f => (lookupKey f row).isNone)

/-- The coercion loop of `_validate_and_build_matrix` (src/app.py lines
88-97): for each feature in schema order, `v = row[f]` (a `KeyError` here
would escape as a non-ValueError; unreachable after the missing-check) then
`float(v)`, raising `ValueError(f"Value of '{f}' in instance {idx} is not
numeric.")` when the coercion fails. -/
def coerceValues (idx : Nat) (row : List (String × Value)) :
    List String → Except PyExc (List PyFloat)
  | [] => .ok []
  | f :: fs =>
    match lookupKey f row with
    | none => .error (.keyError f)
    | some v =>
      match pyFloat v with
      | none => .error (.valueError (.notNumeric f idx))
      | some x => (coerceValues idx row fs).map (fun xs => x :: xs)

/-- Per-record validation: the missing-features check (src/app.py lines
84-86) followed by the coercion loop. -/
def validateRow (feature_order : List String) (idx : Nat)
    (row : List (String × Value)) : Except PyExc (List PyFloat) :=
  let missing := missingOf feature_order row
  if missing.isEmpty then coerceValues idx row feature_order
  else .error (.valueError (.missingFeatures idx missing))

/-- Processing of one element of `instances`: the `isinstance(row, dict)`
check (src/app.py lines 82-83) then `validateRow`. -/
def recordResult (feature_order : List String) (idx : Nat) :
    Value → Except PyExc (List PyFloat)
  | .obj row => validateRow feature_order idx row
  | _ => .error (.valueError (.notAnObject idx))

/-- The enumeration loop over `instances` (src/app.py lines 81-98),
accumulating one row per record, short-circuiting on the first error. -/
def buildRows (feature_order : List String) (idx : Nat) :
    List Value → Except PyExc (List (List PyFloat))
  | [] => .ok []
  | r :: rest =>
    match recordResult feature_order idx r with
    | .error e => .error e
    | .ok vals => (buildRows feature_order (idx + 1) rest).map (fun m => vals :: m)

/-- `_validate_and_build_matrix` (src/app.py lines 63-100): rejects a
non-list or empty `instances`, otherwise builds the matrix row by row. -/
def validate_and_build_matrix (feature_order : List String) (instances : Value) :
    Except PyExc (List (List PyFloat)) :=
  match instances with
  | .arr rows =>
    if rows.isEmpty then .error (.valueError .instancesNotNonEmptyList)
    else buildRows feature_order 0 rows
  | _ => .error (.valueError .instancesNotNonEmptyList)

/-- The opaque fitted pipeline (`MODEL`): a fallible `predict` and an
optional fallible `predict_proba`; `predict_proba.isSome` models
`hasattr(MODEL, "predict_proba")` (src/app.py line 152). Operations may
raise (`.error`), as a mismatched artifact does. -/
structure Model where
  predict : List (List PyFloat) → Except PyExc (List Int)
  predict_proba : Option (List (List PyFloat) → Except PyExc (List (List PyFloat)))

/-- The process-wide state loaded at startup (src/app.py lines 38-55). -/
structure ServerContext where
  FEATURE_ORDER : List String
  CLASS_NAMES : List String
  MODEL : Model

/-- Python list indexing `l[i]` with an `int` index: non-negative indexes
from the front, negative from the back, out of range is `IndexError`
(`none`). Used for `CLASS_NAMES[i]` (src/app.py line 159). -/
def pyIndex (l : List String) (i : Int) : Option String :=
  if 0 ≤ i then l.get? i.toNat
  else if 0 ≤ i + l.length then l.get? (i + l.length).toNat
  else none

/-- `classes_str = [CLASS_NAMES[i] for i in preds]` (src/app.py line 159):
left-to-right, the first out-of-range id raises `IndexError`. -/
def mapClasses (cns : List String) : List Int → Except PyExc (List String)
  | [] => .ok []
  | i :: rest =>
    match pyIndex cns i with
    | none => .error (.indexError i)
    | some c => (mapClasses cns rest).map (fun cs => c :: cs)

/-- The probability step (src/app.py lines 152-155): call `predict_proba`
when the capability exists, otherwise `probas = None`. -/
def computeProbas (m : Model) (X : List (List PyFloat)) :
    Except PyExc (Option (List (List PyFloat))) :=
  match m.predict_proba with
  | some f => (f X).map some
  | none => .ok none

/-- The fields of the success-response dict `resp` (src/app.py
lines 161-166). -/
structure SuccessBody where
  predictions : List Int
  classes : List String
  probas : Option (List (List PyFloat))
  class_names : List String

/-- The body of the `try` block of `predict` after the `instances`-key
check (src/app.py lines 150-166): validate and build `X`, `MODEL.predict`,
optional `MODEL.predict_proba`, then the class-name mapping; any raised
exception propagates to the `except` clauses. -/
def predictCore (ctx : ServerContext) (instances : Value) :
    Except PyExc SuccessBody :=
  match validate_and_build_matrix ctx.FEATURE_ORDER instances with
  | .error e => .error e
  | .ok X =>
    match ctx.MODEL.predict X with
    | .error e => .error e
    | .ok preds =>
      match computeProbas ctx.MODEL X with
      | .error e => .error e
      | .ok probas =>
        match mapClasses ctx.CLASS_NAMES preds with
        | .error e => .error e
        | .ok classes => .ok ⟨preds, classes, probas, ctx.CLASS_NAMES⟩

/-- `jsonify(resp)`: the JSON object serialized for a 200 response. Note
the `probas` key is always written; Python `None` serializes as JSON
`null`. -/
def jsonifySuccess (b : SuccessBody) : Value :=
  .obj [("predictions", .arr (b.predictions.map .int)),
        ("classes", .arr (b.classes.map .str)),
        ("probas",
          match b.probas with
          | none => .null
          | some ps => .arr (ps.map (fun r => .arr (r.map .num)))),
        ("class_names", .arr (b.class_names.map .str))]

/-- Python `repr` of a list of strings, as interpolated into the
missing-features message. -/
def pyReprStrList (l : List String) : String :=
  "[" ++ String.intercalate ", " (l.map (fun s => "\x27" ++ s ++ "\x27")) ++ "]"

/-- The exact `ValueError` message strings of `_validate_and_build_matrix`
(src/app.py lines 78, 83, 86, 95). -/
def VError.message : VError → String
  | .instancesNotNonEmptyList => "The \x27instances\x27 field must be a non-empty list."
  | .notAnObject idx => "Instance at position " ++ toString idx ++ " is not a valid JSON object."
  | .missingFeatures idx missing =>
      "Missing features in instance " ++ toString idx ++ ": " ++ pyReprStrList missing
  | .notNumeric f idx =>
      "Value of \x27" ++ f ++ "\x27 in instance " ++ toString idx ++ " is not numeric."

/-- `str(e)` for each modelled exception. -/
def PyExc.text : PyExc → String
  | .valueError e => e.message
  | .keyError k => "\x27" ++ k ++ "\x27"
  | .indexError _ => "list index out of range"
  | .modelExc _ msg => msg

/-- `jsonify({"error": msg})`. -/
def errorJson (msg : String) : Value := .obj [("error", .str msg)]

/-- The `/predict` handler (src/app.py lines 123-174) on a JSON-object
payload: the `instances` membership check, then the `try` body, with
`except ValueError` answering 400 and `except Exception` answering 500
with `"Internal error: " + str(e)`. -/
def predictEndpoint (ctx : ServerContext) (payload : List (String × Value)) :
    Value × Nat :=
  match lookupKey "instances" payload with
  | none => (errorJson "JSON body must include the \x27instances\x27 key.", 400)
  | some instances =>
    match predictCore ctx instances with
    | .ok b => (jsonifySuccess b, 200)
    | .error e =>
      if e.isValueError then (errorJson e.text, 400)
      else (errorJson ("Internal error: " ++ e.text), 500)

/-! ## The trainer's artifact writing (`src/train_model.py`) and the
service's startup read of `features.json` (src/app.py lines 50-51). -/

/-- A minimal filesystem: a set of existing directories and a map from
paths to JSON file contents (the opaque `model.joblib` bytes are carried
as an arbitrary `Value`). -/
structure FileSystem where
  dirs : List String
  files : List (String × Value)

/-- Write (create or overwrite) a file. -/
def FileSystem.writeFile (fs : FileSystem) (path : String) (content : Value) :
    FileSystem :=
  { fs with files := (path, content) :: fs.files.filter (fun kv => kv.1 ≠ path) }

/-- Read a file's content. -/
def FileSystem.readFile (fs : FileSystem) (path : String) : Option Value :=
  ((fs.files.filter (fun kv => kv.1 = path)).head?).map Prod.snd

/-- The record `json.dump`ed to `features.json`
(src/train_model.py line 101): a single key `feature_order`. -/
def featuresRecord (feature_names : List String) : Value :=
  .obj [("feature_order", .arr (feature_names.map .str))]

/-- `save_artifacts(model, feature_names, out_dir)` (src/train_model.py
lines 83-104): `out.mkdir(parents=True, exist_ok=True)`, then dump the
model to `out/model.joblib` and the feature-order record to
`out/features.json`. -/
def save_artifacts (modelBlob : Value) (feature_names : List String)
    (out_dir : String) (fs : FileSystem) : FileSystem :=
  let fs1 : FileSystem :=
    { fs with dirs := if out_dir ∈ fs.dirs then fs.dirs else out_dir :: fs.dirs }
  let fs2 := fs1.writeFile (out_dir ++ "/model.joblib") modelBlob
  fs2.writeFile (out_dir ++ "/features.json") (featuresRecord feature_names)

/-- The startup read `FEATURE_ORDER = json.load(f)["feature_order"]`
(src/app.py lines 50-51), decoded back to a list of strings. -/
def loadFeatureOrder (fs : FileSystem) (dir : String) : Option Value :=
  (fs.readFile (dir ++ "/features.json")).bind fun v =>
    match v with
    | .obj fields => lookupKey "feature_order" fields
    | _ => none

/-- Decode a list of JSON string values. -/
def decodeStrs : List Value → Option (List String)
  | [] => some []
  | .str s :: rest => (decodeStrs rest).map (fun l => s :: l)
  | _ => none

/-- Decode a JSON array of strings. -/
def decodeStrList : Value → Option (List String)
  | .arr elems => decodeStrs elems
  | _ => none

/-! ## Validity predicates and helper lemmas -/

/-- Whether an element of `instances` passes the whole per-record
validation: it is an object, no schema feature is missing, and every
schema feature's value coerces. -/
def validInstance (fo : List String) : Value → Bool
  | .obj row =>
      (missingOf fo row).isEmpty &&
        fo.all (fun f => ((lookupKey f row).bind pyFloat).isSome)
  | _ => false

/-- The 0-indexed record position carried by a validation error. -/
def PyExc.position : PyExc → Option Nat
  | .valueError (.notAnObject idx) => some idx
  | .valueError (.missingFeatures idx _) => some idx
  | .valueError (.notNumeric _ idx) => some idx
  | _ => none

/-- A concrete pipeline predicting a constant class id, for concrete
instantiations. -/
def constModel (k : Int) : Model :=
  { predict := fun X => .ok (X.map fun _ => k), predict_proba := none }

/-- A pipeline whose predict raises a `ValueError`, as sklearn does when the
loaded artifact was fit on a different feature count. -/
def mismatchModel : Model :=
  { predict := fun _ => .error (.modelExc true
      "X has 2 features, but StandardScaler is expecting 13 features as input."),
    predict_proba := none }

/-- A concrete server context with a one-feature schema and two class
names. -/
def testCtx : ServerContext :=
  { FEATURE_ORDER := ["alcohol"], CLASS_NAMES := ["class_0", "class_1"],
    MODEL := constModel 0 }

/-- `testCtx` paired with a mismatched pipeline artifact. -/
def mismatchCtx : ServerContext := { testCtx with MODEL := mismatchModel }

/-- `testCtx` paired with a pipeline emitting a class id out of range for
the class-label set. -/
def outOfRangeCtx : ServerContext := { testCtx with MODEL := constModel 5 }

/-- A well-formed request payload for `testCtx`. -/
def testPayload : List (String × Value) :=
  [("instances", .arr [.obj [("alcohol", .int 13)]])]

theorem mem_missingOf {fo : List String} {row : List (String × Value)} {f : String} :
    f ∈ missingOf fo row ↔ f ∈ fo ∧ lookupKey f row = none := by
  simp [missingOf, List.mem_filter, Option.isNone_iff_eq_none]

theorem missingOf_sublist (fo : List String) (row : List (String × Value)) :
    (missingOf fo row).Sublist fo :=
  List.filter_sublist fo

theorem missingOf_empty_iff {fo : List String} {row : List (String × Value)} :
    missingOf fo row = [] ↔ ∀ f ∈ fo, (lookupKey f row).isSome := by
  constructor
  · intro h f hf
    by_cases hl : (lookupKey f row).isSome
    · exact hl
    · exfalso
      have : f ∈ missingOf fo row := by
        rw [mem_missingOf]
        exact ⟨hf, Option.not_isSome_iff_eq_none.mp hl⟩
      simp [h] at this
  · intro h
    by_contra hne
    obtain ⟨f, hf⟩ := List.exists_mem_of_ne_nil _ hne
    rw [mem_missingOf] at hf
    have := h f hf.1
    simp [hf.2] at this

theorem coerceValues_ok_length {idx : Nat} {row : List (String × Value)}
    {fs : List String} {vals : List PyFloat}
    (h : coerceValues idx row fs = .ok vals) : vals.length = fs.length := by
  induction fs generalizing vals with
  | nil => simp [coerceValues] at h; simp [← h]
  | cons f fs ih =>
    simp only [coerceValues] at h
    cases hl : lookupKey f row with
    | none => simp [hl] at h
    | some v =>
      cases hv : pyFloat v with
      | none => simp [hl, hv] at h
      | some x =>
        simp only [hl, hv] at h
        cases hrec : coerceValues idx row fs with
        | error e => simp [hrec, Except.map] at h
        | ok xs =>
          simp [hrec, Except.map] at h
          rw [← h]
          simp [ih hrec]

theorem coerceValues_ok_get {idx : Nat} {row : List (String × Value)}
    {fs : List String} {vals : List PyFloat}
    (h : coerceValues idx row fs = .ok vals) :
    ∀ (j : Nat) (f : String), fs[j]? = some f →
      vals[j]? = (lookupKey f row).bind pyFloat := by
  induction fs generalizing vals with
  | nil => intro j f hj; simp at hj
  | cons g fs ih =>
    intro j f hj
    simp only [coerceValues] at h
    cases hl : lookupKey g row with
    | none => simp [hl] at h
    | some v =>
      cases hv : pyFloat v with
      | none => simp [hl, hv] at h
      | some x =>
        simp only [hl, hv] at h
        cases hrec : coerceValues idx row fs with
        | error e => simp [hrec, Except.map] at h
        | ok xs =>
          simp [hrec, Except.map] at h
          subst h
          cases j with
          | zero =>
            simp at hj
            subst hj
            simp [hl, hv]
          | succ j =>
            simp at hj ⊢
            exact ih hrec j f hj

theorem coerceValues_all_ok (idx : Nat) {row : List (String × Value)}
    {fs : List String}
    (h : ∀ f ∈ fs, ((lookupKey f row).bind pyFloat).isSome) :
    ∃ vals, coerceValues idx row fs = .ok vals := by
  induction fs with
  | nil => exact ⟨[], rfl⟩
  | cons f fs ih =>
    have hf := h f (by simp)
    cases hl : lookupKey f row with
    | none => simp [hl] at hf
    | some v =>
      cases hv : pyFloat v with
      | none => simp [hl, hv] at hf
      | some x =>
        obtain ⟨vals, hvals⟩ := ih (fun g hg => h g (by simp [hg]))
        exact ⟨x :: vals, by simp [coerceValues, hl, hv, hvals, Except.map]⟩

theorem coerceValues_first_bad (idx : Nat) {row : List (String × Value)}
    {fs : List String}
    (hall : ∀ f ∈ fs, (lookupKey f row).isSome)
    (hbad : ¬ ∀ f ∈ fs, ((lookupKey f row).bind pyFloat).isSome) :
    ∃ f, f ∈ fs ∧ (lookupKey f row).bind pyFloat = none ∧
      coerceValues idx row fs = .error (.valueError (.notNumeric f idx)) := by
  induction fs with
  | nil => simp at hbad
  | cons f fs ih =>
    cases hl : lookupKey f row with
    | none => have := hall f (by simp); simp [hl] at this
    | some v =>
      cases hv : pyFloat v with
      | none =>
        refine ⟨f, by simp, by simp [hl, hv], ?_⟩
        simp [coerceValues, hl, hv]
      | some x =>
        have hbad2 : ¬ ∀ g ∈ fs, ((lookupKey g row).bind pyFloat).isSome := by
          intro hok
          apply hbad
          intro g hg
          rcases List.mem_cons.mp hg with rfl | hg2
          · simp [hl, hv]
          · exact hok g hg2
        obtain ⟨g, hg, hgnone, hrec⟩ :=
          ih (fun g hg => hall g (by simp [hg])) hbad2
        refine ⟨g, by simp [hg], hgnone, ?_⟩
        simp [coerceValues, hl, hv, hrec, Except.map]

theorem validateRow_ok_of_valid {fo : List String} {idx : Nat}
    {row : List (String × Value)} (h : validInstance fo (.obj row) = true) :
    ∃ vals, validateRow fo idx row = .ok vals := by
  simp only [validInstance, Bool.and_eq_true, List.all_eq_true] at h
  obtain ⟨hmiss, hco⟩ := h
  obtain ⟨vals, hvals⟩ := coerceValues_all_ok idx hco
  exact ⟨vals, by simp [validateRow, hmiss, hvals]⟩

theorem recordResult_ok_of_valid {fo : List String} (idx : Nat) {r : Value}
    (h : validInstance fo r = true) :
    ∃ vals, recordResult fo idx r = .ok vals := by
  cases r with
  | obj row => exact validateRow_ok_of_valid h
  | int i => simp [validInstance] at h
  | num x => simp [validInstance] at h
  | str s => simp [validInstance] at h
  | boolV b => simp [validInstance] at h
  | null => simp [validInstance] at h
  | arr es => simp [validInstance] at h

theorem recordResult_error_of_invalid {fo : List String} (idx : Nat) {r : Value}
    (h : validInstance fo r = false) :
    ∃ e, recordResult fo idx r = .error e ∧ e.position = some idx := by
  cases r with
  | obj row =>
    simp only [validInstance, Bool.and_eq_false_iff] at h
    by_cases hmiss : (missingOf fo row).isEmpty
    · have hbad : ¬ ∀ f ∈ fo, ((lookupKey f row).bind pyFloat).isSome := by
        rcases h with h | h
        · simp [hmiss] at h
        · intro hok
          simp [List.all_eq_true.mpr hok] at h
      have hall : ∀ f ∈ fo, (lookupKey f row).isSome :=
        missingOf_empty_iff.mp (by simpa using hmiss)
      obtain ⟨f, _, _, hco⟩ := coerceValues_first_bad idx hall hbad
      exact ⟨.valueError (.notNumeric f idx),
        by simp [recordResult, validateRow, hmiss, hco], rfl⟩
    · exact ⟨.valueError (.missingFeatures idx (missingOf fo row)),
        by simp [recordResult, validateRow, hmiss], rfl⟩
  | int i => exact ⟨.valueError (.notAnObject idx), rfl, rfl⟩
  | num x => exact ⟨.valueError (.notAnObject idx), rfl, rfl⟩
  | str s => exact ⟨.valueError (.notAnObject idx), rfl, rfl⟩
  | boolV b => exact ⟨.valueError (.notAnObject idx), rfl, rfl⟩
  | null => exact ⟨.valueError (.notAnObject idx), rfl, rfl⟩
  | arr es => exact ⟨.valueError (.notAnObject idx), rfl, rfl⟩

theorem buildRows_ok_length {fo : List String} {i : Nat} {rows : List Value}
    {M : List (List PyFloat)} (h : buildRows fo i rows = .ok M) :
    M.length = rows.length := by
  induction rows generalizing i M with
  | nil => simp [buildRows] at h; simp [← h]
  | cons r rest ih =>
    simp only [buildRows] at h
    cases hr : recordResult fo i r with
    | error e => simp [hr] at h
    | ok vals =>
      cases hrec : buildRows fo (i + 1) rest with
      | error e => simp [hr, hrec, Except.map] at h
      | ok M2 =>
        simp [hr, hrec, Except.map] at h
        rw [← h]
        simp [ih hrec]

theorem buildRows_all_valid (fo : List String) {rows : List Value} (i : Nat)
    (h : ∀ r ∈ rows, validInstance fo r = true) :
    ∃ M, buildRows fo i rows = .ok M ∧ M.length = rows.length ∧
      ∀ (k : Nat) (r : Value), rows[k]? = some r →
        ∃ vals, recordResult fo (i + k) r = .ok vals ∧ M[k]? = some vals := by
  induction rows generalizing i with
  | nil => exact ⟨[], rfl, rfl, by intro k r hk; simp at hk⟩
  | cons r rest ih =>
    obtain ⟨vals, hvals⟩ := recordResult_ok_of_valid i (h r (by simp))
    obtain ⟨M2, hM2, hlen, hget⟩ := ih (i + 1) (fun r2 hr2 => h r2 (by simp [hr2]))
    refine ⟨vals :: M2, by simp [buildRows, hvals, hM2, Except.map], by simp [hlen], ?_⟩
    intro k r2 hk
    cases k with
    | zero =>
      simp at hk
      subst hk
      exact ⟨vals, by simpa using hvals, by simp⟩
    | succ k =>
      simp at hk ⊢
      have := hget k r2 hk
      simpa [Nat.add_assoc, Nat.add_comm 1 k] using this

theorem buildRows_first_error {fo : List String} {rows : List Value} {k : Nat}
    {r : Value} (i : Nat)
    (hk : rows[k]? = some r) (hbad : validInstance fo r = false)
    (hbefore : ∀ (m : Nat) (v : Value), m < k → rows[m]? = some v →
      validInstance fo v = true) :
    ∃ e, buildRows fo i rows = .error e ∧ recordResult fo (i + k) r = .error e ∧
      buildRows fo i rows = buildRows fo i (rows.take (k + 1)) := by
  induction rows generalizing i k with
  | nil => simp at hk
  | cons r0 rest ih =>
    cases k with
    | zero =>
      simp at hk
      subst hk
      obtain ⟨e, he, _⟩ := recordResult_error_of_invalid i hbad
      exact ⟨e, by simp [buildRows, he], by simpa using he, by simp [buildRows, he]⟩
    | succ k =>
      have hvalid0 : validInstance fo r0 = true := hbefore 0 r0 (Nat.succ_pos k) (by simp)
      obtain ⟨vals, hvals⟩ := recordResult_ok_of_valid i hvalid0
      simp at hk
      obtain ⟨e, he, hrr, htake⟩ :=
        ih (i + 1) hk
          (fun m v hm hv => hbefore (m + 1) v (Nat.succ_lt_succ hm) (by simpa using hv))
      refine ⟨e, by simp [buildRows, hvals, he, Except.map], ?_, ?_⟩
      · simpa [Nat.add_assoc, Nat.add_comm 1 k] using hrr
      · simp only [buildRows, hvals, List.take_succ_cons]
        rw [← htake]

theorem mapClasses_ok_length {cns : List String} {ps : List Int} {cs : List String}
    (h : mapClasses cns ps = .ok cs) : cs.length = ps.length := by
  induction ps generalizing cs with
  | nil => simp [mapClasses] at h; simp [← h]
  | cons p ps ih =>
    simp only [mapClasses] at h
    cases hp : pyIndex cns p with
    | none => simp [hp] at h
    | some c =>
      cases hrec : mapClasses cns ps with
      | error e => simp [hp, hrec, Except.map] at h
      | ok cs2 =>
        simp [hp, hrec, Except.map] at h
        rw [← h]
        simp [ih hrec]

theorem mapClasses_ok_get {cns : List String} {ps : List Int} {cs : List String}
    (h : mapClasses cns ps = .ok cs) :
    ∀ (j : Nat) (p : Int), ps[j]? = some p → cs[j]? = pyIndex cns p := by
  induction ps generalizing cs with
  | nil => intro j p hj; simp at hj
  | cons q ps ih =>
    intro j p hj
    simp only [mapClasses] at h
    cases hq : pyIndex cns q with
    | none => simp [hq] at h
    | some c =>
      cases hrec : mapClasses cns ps with
      | error e => simp [hq, hrec, Except.map] at h
      | ok cs2 =>
        simp [hq, hrec, Except.map] at h
        subst h
        cases j with
        | zero => simp at hj; subst hj; simp [hq]
        | succ j => simp at hj ⊢; exact ih hrec j p hj

theorem lookupKey_filter {p : String × Value → Bool} {f : String}
    (row : List (String × Value)) (hp : ∀ v, p (f, v) = true) :
    lookupKey f (row.filter p) = lookupKey f row := by
  induction row with
  | nil => rfl
  | cons kv rest ih =>
    obtain ⟨k, v⟩ := kv
    by_cases hk : k = f
    · subst hk
      simp [List.filter_cons, hp v, lookupKey]
    · cases hkeep : p (k, v) with
      | true => simp [List.filter_cons, hkeep, lookupKey, hk, ih]
      | false => simp [List.filter_cons, hkeep, lookupKey, hk, ih]

theorem lookupKey_eq_of_filter_eq {fo : List String}
    {row row0 : List (String × Value)}
    (h : row.filter (fun kv => decide (kv.1 ∈ fo)) =
         row0.filter (fun kv => decide (kv.1 ∈ fo)))
    {f : String} (hf : f ∈ fo) :
    lookupKey f row = lookupKey f row0 := by
  have h1 := lookupKey_filter (p := fun kv => decide (kv.1 ∈ fo)) (f := f) row
    (fun v => by simpa using hf)
  have h2 := lookupKey_filter (p := fun kv => decide (kv.1 ∈ fo)) (f := f) row0
    (fun v => by simpa using hf)
  rw [← h1, ← h2, h]

theorem coerceValues_congr {idx : Nat} {row row0 : List (String × Value)}
    {fs : List String}
    (h : ∀ f ∈ fs, lookupKey f row = lookupKey f row0) :
    coerceValues idx row fs = coerceValues idx row0 fs := by
  induction fs with
  | nil => rfl
  | cons f fs ih =>
    simp only [coerceValues, h f (by simp)]
    rw [ih (fun g hg => h g (by simp [hg]))]

theorem missingOf_congr {fo : List String} {row row0 : List (String × Value)}
    (h : ∀ f ∈ fo, lookupKey f row = lookupKey f row0) :
    missingOf fo row = missingOf fo row0 := by
  unfold missingOf
  exact List.filter_congr (fun f hf => by rw [h f hf])

theorem validateRow_ok_length {fo : List String} {idx : Nat}
    {row : List (String × Value)} {vals : List PyFloat}
    (h : validateRow fo idx row = .ok vals) : vals.length = fo.length := by
  unfold validateRow at h
  by_cases hmiss : (missingOf fo row).isEmpty
  · exact coerceValues_ok_length (by simpa [hmiss] using h)
  · simp [hmiss] at h

theorem validateRow_ok_get {fo : List String} {idx : Nat}
    {row : List (String × Value)} {vals : List PyFloat}
    (h : validateRow fo idx row = .ok vals) :
    ∀ (j : Nat) (f : String), fo[j]? = some f →
      vals[j]? = (lookupKey f row).bind pyFloat := by
  unfold validateRow at h
  by_cases hmiss : (missingOf fo row).isEmpty
  · exact coerceValues_ok_get (by simpa [hmiss] using h)
  · simp [hmiss] at h

theorem recordResult_ok_obj {fo : List String} {idx : Nat} {r : Value}
    {vals : List PyFloat} (h : recordResult fo idx r = .ok vals) :
    ∃ fields, r = .obj fields ∧ validateRow fo idx fields = .ok vals := by
  cases r with
  | obj fields => exact ⟨fields, rfl, h⟩
  | int i => simp [recordResult] at h
  | num x => simp [recordResult] at h
  | str s => simp [recordResult] at h
  | boolV b => simp [recordResult] at h
  | null => simp [recordResult] at h
  | arr es => simp [recordResult] at h

/-! ## Claim theorems -/

/-- C2: for every non-empty batch of flat records that each contain every
schema feature with a float-coercible value, `_validate_and_build_matrix`
succeeds; the matrix has one row per record and one column per schema
feature, and entry (i, j) is the float coercion of record i's value for
the j-th schema feature — column order follows the schema, not the
record's own key order. -/
theorem C2_build_matrix_shape (fo : List String) (rows : List Value)
    (hne : rows ≠ [])
    (hvalid : ∀ r ∈ rows, validInstance fo r = true) :
    ∃ M, validate_and_build_matrix fo (.arr rows) = .ok M ∧
      M.length = rows.length ∧
      (∀ row ∈ M, row.length = fo.length) ∧
      ∀ (i j : Nat) (fields : List (String × Value)) (f : String),
        rows[i]? = some (.obj fields) → fo[j]? = some f →
        ∃ Mi, M[i]? = some Mi ∧ Mi[j]? = (lookupKey f fields).bind pyFloat := by
  obtain ⟨M, hM, hlen, hget⟩ := buildRows_all_valid fo 0 hvalid
  have hbuild : validate_and_build_matrix fo (.arr rows) = .ok M := by
    simp [validate_and_build_matrix, List.isEmpty_iff, hne, hM]
  refine ⟨M, hbuild, hlen, ?_, ?_⟩
  · intro row hrow
    obtain ⟨k, hk, hkeq⟩ := List.getElem_of_mem hrow
    have hkrows : k < rows.length := hlen ▸ hk
    have hrowsk : rows[k]? = some rows[k] := List.getElem?_eq_getElem hkrows
    obtain ⟨vals, hrr, hMk⟩ := hget k rows[k] hrowsk
    have hvals_row : vals = row := by
      have h2 := List.getElem?_eq_getElem hk
      rw [hMk, hkeq] at h2
      exact Option.some.inj h2
    subst hvals_row
    obtain ⟨fields, _, hvr⟩ := recordResult_ok_obj hrr
    exact validateRow_ok_length hvr
  · intro i j fields f hi hj
    obtain ⟨vals, hrr, hMi⟩ := hget i (.obj fields) hi
    obtain ⟨fields2, heq, hvr⟩ := recordResult_ok_obj hrr
    cases heq
    exact ⟨vals, hMi, validateRow_ok_get hvr j f hj⟩

/-- C2 witness: a concrete two-feature schema and one record given in
reversed key order. -/
theorem C2_build_matrix_shape_witness :
    ∃ M, validate_and_build_matrix ["a", "b"]
        (.arr [.obj [("b", .int 2), ("a", .str "1.5")]]) = .ok M ∧
      M.length = 1 ∧
      (∀ row ∈ M, row.length = 2) ∧
      ∀ (i j : Nat) (fields : List (String × Value)) (f : String),
        [Value.obj [("b", .int 2), ("a", .str "1.5")]][i]? = some (.obj fields) →
        ["a", "b"][j]? = some f →
        ∃ Mi, M[i]? = some Mi ∧ Mi[j]? = (lookupKey f fields).bind pyFloat :=
  C2_build_matrix_shape ["a", "b"] [.obj [("b", .int 2), ("a", .str "1.5")]]
    (List.cons_ne_nil _ _) (by decide)

/-- C3: for a record that is a flat mapping but lacks at least one schema
feature (and is the first offending record), validation fails naming that
record's 0-indexed position and a missing-feature list that exactly equals
the set of schema features absent from that record. -/
theorem C3_missing_features (fo : List String) (rows : List Value) (idx : Nat)
    (fields : List (String × Value))
    (hidx : rows[idx]? = some (.obj fields))
    (hmiss : missingOf fo fields ≠ [])
    (hbefore : ∀ (m : Nat) (v : Value), m < idx → rows[m]? = some v →
      validInstance fo v = true) :
    validate_and_build_matrix fo (.arr rows) =
      .error (.valueError (.missingFeatures idx (missingOf fo fields))) ∧
    ∀ f, f ∈ missingOf fo fields ↔ f ∈ fo ∧ lookupKey f fields = none := by
  have hbad : validInstance fo (.obj fields) = false := by
    simp [validInstance, List.isEmpty_iff, hmiss]
  obtain ⟨e, hbuild, hrr, _⟩ := buildRows_first_error 0 hidx hbad hbefore
  have hne : rows ≠ [] := by
    intro h
    subst h
    simp at hidx
  have he : e = .valueError (.missingFeatures idx (missingOf fo fields)) := by
    have : recordResult fo idx (.obj fields) =
        .error (.valueError (.missingFeatures idx (missingOf fo fields))) := by
      simp [recordResult, validateRow, List.isEmpty_iff, hmiss]
    rw [Nat.zero_add] at hrr
    rw [this] at hrr
    exact (Except.error.inj hrr).symm
  subst he
  refine ⟨?_, fun f => mem_missingOf⟩
  simp [validate_and_build_matrix, List.isEmpty_iff, hne, hbuild]

/-- C3 witness: a two-feature schema and a single record lacking the second
feature. -/
theorem C3_missing_features_witness :
    validate_and_build_matrix ["a", "b"] (.arr [.obj [("a", .int 1)]]) =
      .error (.valueError (.missingFeatures 0 (missingOf ["a", "b"] [("a", .int 1)]))) ∧
    ∀ f, f ∈ missingOf ["a", "b"] [("a", Value.int 1)] ↔
      f ∈ ["a", "b"] ∧ lookupKey f [("a", Value.int 1)] = none :=
  C3_missing_features ["a", "b"] [.obj [("a", .int 1)]] 0 [("a", .int 1)]
    (by simp) (by decide)
    (fun m v hm _ => absurd hm (Nat.not_lt_zero m))

/-- C4: for a record containing all schema features but where some schema
feature's value cannot be coerced to float (and that is the first offending
record), validation fails with an error naming an offending feature and the
record's position. -/
theorem C4_non_numeric (fo : List String) (rows : List Value) (idx : Nat)
    (fields : List (String × Value))
    (hidx : rows[idx]? = some (.obj fields))
    (hnomiss : missingOf fo fields = [])
    (hbad : ¬ ∀ f ∈ fo, ((lookupKey f fields).bind pyFloat).isSome)
    (hbefore : ∀ (m : Nat) (v : Value), m < idx → rows[m]? = some v →
      validInstance fo v = true) :
    ∃ f, f ∈ fo ∧ (lookupKey f fields).bind pyFloat = none ∧
      validate_and_build_matrix fo (.arr rows) =
        .error (.valueError (.notNumeric f idx)) := by
  have hinv : validInstance fo (.obj fields) = false := by
    simp only [validInstance, Bool.and_eq_false_iff]
    right
    rw [← Bool.not_eq_true, List.all_eq_true]
    simpa using hbad
  obtain ⟨e, hbuild, hrr, _⟩ := buildRows_first_error 0 hidx hinv hbefore
  have hne : rows ≠ [] := by
    intro h
    subst h
    simp at hidx
  have hall : ∀ f ∈ fo, (lookupKey f fields).isSome :=
    missingOf_empty_iff.mp hnomiss
  obtain ⟨f, hf, hfnone, hco⟩ := coerceValues_first_bad idx hall hbad
  have he : e = .valueError (.notNumeric f idx) := by
    have : recordResult fo idx (.obj fields) =
        .error (.valueError (.notNumeric f idx)) := by
      simp [recordResult, validateRow, hnomiss, hco]
    rw [Nat.zero_add] at hrr
    rw [this] at hrr
    exact (Except.error.inj hrr).symm
  subst he
  refine ⟨f, hf, hfnone, ?_⟩
  simp [validate_and_build_matrix, List.isEmpty_iff, hne, hbuild]

/-- C4 witness: a single record whose only feature value is the
non-numeric string "abc". -/
theorem C4_non_numeric_witness :
    ∃ f, f ∈ ["a"] ∧ (lookupKey f [("a", Value.str "abc")]).bind pyFloat = none ∧
      validate_and_build_matrix ["a"] (.arr [.obj [("a", .str "abc")]]) =
        .error (.valueError (.notNumeric f 0)) :=
  C4_non_numeric ["a"] [.obj [("a", .str "abc")]] 0 [("a", .str "abc")]
    (by simp) (by decide) (by decide)
    (fun m v hm _ => absurd hm (Nat.not_lt_zero m))

/-- C7: records differing only in entries whose keys are outside the
schema validate identically: the missing-feature computation and the whole
per-record validation agree, and on single-record batches
`_validate_and_build_matrix` returns the same matrix. -/
theorem C7_extra_keys_ignored (fo : List String) (idx : Nat)
    (row row0 : List (String × Value))
    (hfilter : row.filter (fun kv => decide (kv.1 ∈ fo)) =
               row0.filter (fun kv => decide (kv.1 ∈ fo))) :
    validateRow fo idx row = validateRow fo idx row0 ∧
    missingOf fo row = missingOf fo row0 ∧
    validate_and_build_matrix fo (.arr [.obj row]) =
      validate_and_build_matrix fo (.arr [.obj row0]) := by
  have hl : ∀ f ∈ fo, lookupKey f row = lookupKey f row0 :=
    fun f hf => lookupKey_eq_of_filter_eq hfilter hf
  have hv : validateRow fo idx row = validateRow fo idx row0 := by
    unfold validateRow
    rw [missingOf_congr hl, coerceValues_congr (fun f hf => hl f hf)]
  have hv0 : validateRow fo 0 row = validateRow fo 0 row0 := by
    unfold validateRow
    rw [missingOf_congr hl, coerceValues_congr (fun f hf => hl f hf)]
  refine ⟨hv, missingOf_congr hl, ?_⟩
  simp [validate_and_build_matrix, buildRows, recordResult, hv0]

/-- C7 witness: one extra key `color` beyond the one-feature schema. -/
theorem C7_extra_keys_ignored_witness :
    validateRow ["a"] 0 [("a", .int 1), ("color", .null)] =
      validateRow ["a"] 0 [("a", .int 1)] ∧
    missingOf ["a"] [("a", .int 1), ("color", .null)] =
      missingOf ["a"] [("a", .int 1)] ∧
    validate_and_build_matrix ["a"] (.arr [.obj [("a", .int 1), ("color", .null)]]) =
      validate_and_build_matrix ["a"] (.arr [.obj [("a", .int 1)]]) :=
  C7_extra_keys_ignored ["a"] 0 [("a", .int 1), ("color", .null)] [("a", .int 1)] rfl

/-- C9: validation reports exactly one violation, belonging to the earliest
offending record: the error carries the smallest offending 0-indexed
position, the result coincides with validating only the first k+1 records
(no later record is examined), and when the offending record is an object
with missing features the error is the missing-features one (the
missing-check precedes coercion even if values are also non-coercible),
its list a sublist of the schema (schema order, not record key order). -/
theorem C9_earliest_violation (fo : List String) (rows : List Value) (k : Nat)
    (r : Value)
    (hk : rows[k]? = some r) (hbad : validInstance fo r = false)
    (hbefore : ∀ (m : Nat) (v : Value), m < k → rows[m]? = some v →
      validInstance fo v = true) :
    ∃ e, validate_and_build_matrix fo (.arr rows) = .error e ∧
      e.position = some k ∧
      validate_and_build_matrix fo (.arr rows) =
        validate_and_build_matrix fo (.arr (rows.take (k + 1))) ∧
      ∀ fields, r = .obj fields → missingOf fo fields ≠ [] →
        e = .valueError (.missingFeatures k (missingOf fo fields)) ∧
        (missingOf fo fields).Sublist fo := by
  obtain ⟨e, hbuild, hrr, htake⟩ := buildRows_first_error 0 hk hbad hbefore
  rw [Nat.zero_add] at hrr
  have hne : rows ≠ [] := by
    intro h
    subst h
    simp at hk
  have hklen : k < rows.length := by
    by_contra hcon
    rw [List.getElem?_eq_none (by omega)] at hk
    exact Option.noConfusion hk
  have hnetake : rows.take (k + 1) ≠ [] := by
    have hpos : 0 < (rows.take (k + 1)).length := by
      rw [List.length_take]
      omega
    exact List.length_pos.mp hpos
  obtain ⟨e2, he2, hpos⟩ := recordResult_error_of_invalid k hbad
  have hee2 : e = e2 := by
    rw [hrr] at he2
    exact Except.error.inj he2
  refine ⟨e, ?_, by rw [hee2]; exact hpos, ?_, ?_⟩
  · simp [validate_and_build_matrix, List.isEmpty_iff, hne, hbuild]
  · simp [validate_and_build_matrix, List.isEmpty_iff, hne, hnetake, htake]
  · intro fields hfr hmiss
    subst hfr
    have : recordResult fo k (.obj fields) =
        .error (.valueError (.missingFeatures k (missingOf fo fields))) := by
      simp [recordResult, validateRow, List.isEmpty_iff, hmiss]
    rw [this] at hrr
    exact ⟨(Except.error.inj hrr).symm, missingOf_sublist fo fields⟩

/-- C9 witness: the second record of a batch both lacks feature `b` and
holds a non-coercible `a`; the first record is valid. -/
theorem C9_earliest_violation_witness :
    ∃ e, validate_and_build_matrix ["a", "b"]
        (.arr [.obj [("a", .int 1), ("b", .int 2)], .obj [("a", .str "abc")],
               .obj []]) = .error e ∧
      e.position = some 1 ∧
      validate_and_build_matrix ["a", "b"]
          (.arr [.obj [("a", .int 1), ("b", .int 2)], .obj [("a", .str "abc")],
                 .obj []]) =
        validate_and_build_matrix ["a", "b"]
          (.arr ([Value.obj [("a", .int 1), ("b", .int 2)], .obj [("a", .str "abc")],
                  .obj []].take 2)) ∧
      ∀ fields, Value.obj [("a", Value.str "abc")] = .obj fields →
        missingOf ["a", "b"] fields ≠ [] →
        e = .valueError (.missingFeatures 1 (missingOf ["a", "b"] fields)) ∧
        (missingOf ["a", "b"] fields).Sublist ["a", "b"] :=
  C9_earliest_violation ["a", "b"]
    [.obj [("a", .int 1), ("b", .int 2)], .obj [("a", .str "abc")], .obj []]
    1 (.obj [("a", .str "abc")]) (by simp) (by decide)
    (by
      intro m v hm hv
      have hm0 : m = 0 := by omega
      subst hm0
      simp at hv
      subst hv
      decide)

/-- C10: the value coercion is exactly Python's `float()`: numeric strings,
booleans and the strings "nan"/"inf" are accepted (the latter two yielding
non-finite matrix entries handed to the pipeline), and — given every schema
feature is present — a record passes validation if and only if `float()`
accepts every schema feature's value. -/
theorem C10_float_semantics :
    pyFloat (.str "13.2") = some (.finite (66 / 5)) ∧
    pyFloat (.boolV true) = some (.finite 1) ∧
    pyFloat (.boolV false) = some (.finite 0) ∧
    pyFloat (.str "nan") = some .nan ∧
    pyFloat (.str "inf") = some .inf ∧
    PyFloat.nan.isFinite = false ∧
    PyFloat.inf.isFinite = false ∧
    validate_and_build_matrix ["a", "b"]
      (.arr [.obj [("a", .str "nan"), ("b", .str "inf")]]) =
      .ok [[.nan, .inf]] ∧
    ∀ (fo : List String) (idx : Nat) (row : List (String × Value)),
      missingOf fo row = [] →
      ((∃ vals, validateRow fo idx row = .ok vals) ↔
        ∀ f ∈ fo, ∃ v, lookupKey f row = some v ∧ (pyFloat v).isSome) := by
  refine ⟨?_, rfl, rfl, rfl, rfl, rfl, rfl, rfl, ?_⟩
  · rw [show pyFloat (.str "13.2") =
      some (.finite (((13 : ℚ) + (2 : ℚ) / (10 : ℚ) ^ (1 : ℕ)) * (10 : ℚ) ^ (0 : ℤ)))
      from rfl]
    norm_num
  intro fo idx row hnomiss
  constructor
  · rintro ⟨vals, hvals⟩
    intro f hf
    obtain ⟨j, hjlt, hj⟩ := List.getElem_of_mem hf
    have hj? : fo[j]? = some f := by
      rw [List.getElem?_eq_getElem hjlt, hj]
    have hget := validateRow_ok_get hvals j f hj?
    have hjvals : j < vals.length := by
      rw [validateRow_ok_length hvals]
      exact hjlt
    have hsome : vals[j]? = some vals[j] := List.getElem?_eq_getElem hjvals
    rw [hget] at hsome
    cases hl : lookupKey f row with
    | none => rw [hl] at hsome; simp at hsome
    | some v =>
      rw [hl] at hsome
      simp only [Option.some_bind] at hsome
      exact ⟨v, rfl, by simp [hsome]⟩
  · intro h
    have hall : ∀ f ∈ fo, ((lookupKey f row).bind pyFloat).isSome := by
      intro f hf
      obtain ⟨v, hv, hs⟩ := h f hf
      simp [hv, hs]
    obtain ⟨vals, hvals⟩ := coerceValues_all_ok idx hall
    exact ⟨vals, by simp [validateRow, hnomiss, hvals]⟩

/-- C10 witness: a record whose only feature is the numeric string "13.2"
passes validation. -/
theorem C10_float_semantics_witness :
    ∃ vals, validateRow ["a"] 0 [("a", Value.str "13.2")] = .ok vals :=
  (C10_float_semantics.2.2.2.2.2.2.2.2 ["a"] 0 [("a", .str "13.2")]
    (by decide)).mpr
    (fun f hf => by
      simp at hf
      subst hf
      exact ⟨.str "13.2", rfl, rfl⟩)

theorem predictCore_ok_spec {ctx : ServerContext} {instances : Value}
    {b : SuccessBody} (h : predictCore ctx instances = .ok b) :
    ∃ X, validate_and_build_matrix ctx.FEATURE_ORDER instances = .ok X ∧
      ctx.MODEL.predict X = .ok b.predictions ∧
      computeProbas ctx.MODEL X = .ok b.probas ∧
      mapClasses ctx.CLASS_NAMES b.predictions = .ok b.classes ∧
      b.class_names = ctx.CLASS_NAMES := by
  unfold predictCore at h
  cases hv : validate_and_build_matrix ctx.FEATURE_ORDER instances with
  | error e => simp only [hv] at h; exact Except.noConfusion h
  | ok X =>
    simp only [hv] at h
    cases hp : ctx.MODEL.predict X with
    | error e => simp only [hp] at h; exact Except.noConfusion h
    | ok preds =>
      simp only [hp] at h
      cases hpr : computeProbas ctx.MODEL X with
      | error e => simp only [hpr] at h; exact Except.noConfusion h
      | ok probas =>
        simp only [hpr] at h
        cases hmc : mapClasses ctx.CLASS_NAMES preds with
        | error e => simp only [hmc] at h; exact Except.noConfusion h
        | ok classes =>
          simp only [hmc, Except.ok.injEq] at h
          subst h
          exact ⟨X, rfl, hp, hpr, hmc, rfl⟩

theorem predictEndpoint_200 {ctx : ServerContext} {payload : List (String × Value)}
    {body : Value} (h : predictEndpoint ctx payload = (body, 200)) :
    ∃ instances b, lookupKey "instances" payload = some instances ∧
      predictCore ctx instances = .ok b ∧ body = jsonifySuccess b := by
  unfold predictEndpoint at h
  cases hl : lookupKey "instances" payload with
  | none =>
    simp only [hl] at h
    simp at h
  | some instances =>
    simp only [hl] at h
    cases hc : predictCore ctx instances with
    | ok b =>
      simp only [hc, Prod.mk.injEq] at h
      exact ⟨instances, b, rfl, hc, h.1.symm⟩
    | error e =>
      simp only [hc] at h
      cases hve : e.isValueError with
      | true => simp [hve] at h
      | false => simp [hve] at h

theorem validate_arr_ok_length {fo : List String} {rows : List Value}
    {M : List (List PyFloat)}
    (h : validate_and_build_matrix fo (.arr rows) = .ok M) :
    M.length = rows.length := by
  unfold validate_and_build_matrix at h
  by_cases he : rows.isEmpty
  · simp [he] at h
  · simp only [he, if_false] at h
    exact buildRows_ok_length h

/-- C5: every successful (200) response has one prediction per input
instance, and each `classes[i]` is the direct (Python) index lookup of
`predictions[i]` in the class-label set carried by the response's
`class_names` field. The pipeline contract (one id per matrix row) is the
hypothesis `hlen`. -/
theorem C5_response_alignment (ctx : ServerContext)
    (payload : List (String × Value)) (rows : List Value) (body : Value)
    (hinst : lookupKey "instances" payload = some (.arr rows))
    (hlen : ∀ X r, ctx.MODEL.predict X = .ok r → r.length = X.length)
    (hend : predictEndpoint ctx payload = (body, 200)) :
    ∃ b, predictCore ctx (.arr rows) = .ok b ∧ body = jsonifySuccess b ∧
      b.class_names = ctx.CLASS_NAMES ∧
      b.predictions.length = rows.length ∧
      b.classes.length = rows.length ∧
      ∀ (i : Nat) (p : Int), b.predictions[i]? = some p →
        b.classes[i]? = pyIndex ctx.CLASS_NAMES p := by
  obtain ⟨instances, b, hl, hc, hb⟩ := predictEndpoint_200 hend
  rw [hinst] at hl
  have hia : instances = .arr rows := (Option.some.inj hl).symm
  subst hia
  obtain ⟨X, hv, hp, _, hmc, hcn⟩ := predictCore_ok_spec hc
  have hXlen : X.length = rows.length := validate_arr_ok_length hv
  have hplen : b.predictions.length = rows.length := by
    rw [hlen X b.predictions hp, hXlen]
  refine ⟨b, hc, hb, hcn, hplen, ?_, ?_⟩
  · rw [mapClasses_ok_length hmc, hplen]
  · exact mapClasses_ok_get hmc

/-- C5 witness: a one-record request against the concrete context. -/
theorem C5_response_alignment_witness :
    ∃ b, predictCore testCtx (.arr [.obj [("alcohol", .int 13)]]) = .ok b ∧
      Value.obj [("predictions", .arr [.int 0]),
                 ("classes", .arr [.str "class_0"]),
                 ("probas", .null),
                 ("class_names", .arr [.str "class_0", .str "class_1"])] =
        jsonifySuccess b ∧
      b.class_names = testCtx.CLASS_NAMES ∧
      b.predictions.length = 1 ∧
      b.classes.length = 1 ∧
      ∀ (i : Nat) (p : Int), b.predictions[i]? = some p →
        b.classes[i]? = pyIndex testCtx.CLASS_NAMES p :=
  C5_response_alignment testCtx testPayload [.obj [("alcohol", .int 13)]]
    (.obj [("predictions", .arr [.int 0]),
           ("classes", .arr [.str "class_0"]),
           ("probas", .null),
           ("class_names", .arr [.str "class_0", .str "class_1"])])
    rfl
    (by
      intro X r h
      simp only [testCtx, constModel] at h
      cases h
      simp)
    rfl

/-- C1 counterexample: with a pipeline lacking `predict_proba`, a
successful request is answered 200 and the response body still CONTAINS
the `probas` field, with value `null` — refuting that the field is absent. -/
theorem C1_counterexample :
    testCtx.MODEL.predict_proba = none ∧
    (predictEndpoint testCtx testPayload).2 = 200 ∧
    ∃ fields, (predictEndpoint testCtx testPayload).1 = .obj fields ∧
      lookupKey "probas" fields = some .null :=
  ⟨rfl, rfl, ⟨_, rfl, rfl⟩⟩

/-- C1 amended: when the pipeline lacks the probability capability, every
successful (200) prediction response carries the `probas` field with value
`null` (it is not omitted). -/
theorem C1_probas_null (ctx : ServerContext) (payload : List (String × Value))
    (body : Value)
    (hnp : ctx.MODEL.predict_proba = none)
    (hend : predictEndpoint ctx payload = (body, 200)) :
    ∃ fields, body = .obj fields ∧ lookupKey "probas" fields = some .null := by
  obtain ⟨instances, b, _, hc, hb⟩ := predictEndpoint_200 hend
  obtain ⟨X, _, _, hpr, _, _⟩ := predictCore_ok_spec hc
  have hpn : b.probas = none := by
    unfold computeProbas at hpr
    rw [hnp] at hpr
    exact (Except.ok.inj hpr).symm
  subst hb
  exact ⟨_, rfl, by simp [jsonifySuccess, lookupKey, hpn]⟩

/-- C1 amended witness: the concrete probability-less context. -/
theorem C1_probas_null_witness :
    ∃ fields, (predictEndpoint testCtx testPayload).1 = .obj fields ∧
      lookupKey "probas" fields = some .null :=
  C1_probas_null testCtx testPayload (predictEndpoint testCtx testPayload).1
    rfl rfl

/-- C6 counterexample: a `ValueError` raised by the pipeline during
prediction (sklearn's artifact feature-count mismatch) on a request whose
validation succeeded is answered with a 400-class validation response, not
a 500 — refuting that every non-validation failure gets a 500. -/
theorem C6_counterexample :
    (∃ X, validate_and_build_matrix mismatchCtx.FEATURE_ORDER
        (.arr [.obj [("alcohol", .int 13)]]) = .ok X) ∧
    predictEndpoint mismatchCtx testPayload =
      (errorJson "X has 2 features, but StandardScaler is expecting 13 features as input.",
       400) :=
  ⟨⟨_, rfl⟩, rfl⟩

/-- C6 amended: a failure during prediction that is NOT a `ValueError`
(e.g. the `IndexError` from an out-of-range class id) is answered with the
generic 500 response whose message is `"Internal error: "` plus the
exception's own text; but a `ValueError` raised during prediction is
indistinguishable from a validation error and is answered 400. -/
theorem C6_non_valueerror_500 (ctx : ServerContext)
    (payload : List (String × Value)) (instances : Value) (e : PyExc)
    (hinst : lookupKey "instances" payload = some instances)
    (hcore : predictCore ctx instances = .error e)
    (hnv : e.isValueError = false) :
    predictEndpoint ctx payload =
      (errorJson ("Internal error: " ++ e.text), 500) := by
  unfold predictEndpoint
  rw [hinst]
  simp [hcore, hnv]

/-- C6 amended witness: the out-of-range class id 5 against a two-name
label set yields the 500 `IndexError` response. -/
theorem C6_non_valueerror_500_witness :
    predictEndpoint outOfRangeCtx testPayload =
      (errorJson ("Internal error: " ++ (PyExc.indexError 5).text), 500) :=
  C6_non_valueerror_500 outOfRangeCtx testPayload
    (.arr [.obj [("alcohol", .int 13)]]) (.indexError 5) rfl rfl rfl

theorem decodeStrs_map (l : List String) :
    decodeStrs (l.map .str) = some l := by
  induction l with
  | nil => rfl
  | cons s rest ih => simp [decodeStrs, ih]

/-- C8: `save_artifacts` records the target directory as created (if
absent), writes the feature-name list under the single key
`feature_order`, and the service's startup read of that record's
`feature_order` field recovers exactly the same ordered list. -/
theorem C8_save_artifacts_roundtrip (modelBlob : Value)
    (feature_names : List String) (out_dir : String) (fs : FileSystem) :
    out_dir ∈ (save_artifacts modelBlob feature_names out_dir fs).dirs ∧
    featuresRecord feature_names =
      .obj [("feature_order", .arr (feature_names.map .str))] ∧
    loadFeatureOrder (save_artifacts modelBlob feature_names out_dir fs)
        out_dir = some (.arr (feature_names.map .str)) ∧
    decodeStrList (.arr (feature_names.map .str)) = some feature_names := by
  refine ⟨?_, rfl, ?_, decodeStrs_map feature_names⟩
  · by_cases h : out_dir ∈ fs.dirs
    · simp [save_artifacts, FileSystem.writeFile, h]
    · simp [save_artifacts, FileSystem.writeFile, h]
  · simp [save_artifacts, FileSystem.writeFile, FileSystem.readFile,
      loadFeatureOrder, featuresRecord, lookupKey]

end Wine
